import Mathlib

/-!
Verification of git-springclean (src/main.rs, src/checks.rs) against its
specification.  The subprocess boundary (invocations of the external `git`
tool) is modelled by an environment record `GitEnv` holding the raw result of
each query: `.error stderr` for a non-zero exit, `.ok stdout` for success.
Everything downstream of that boundary is translated directly from the Rust
source.
-/

/-- Rust `char::is_whitespace`: the Unicode White_Space property. -/
def isRustWhitespace (c : Char) : Bool :=
  let n := c.toNat
  (0x09 ≤ n && n ≤ 0x0D) || n == 0x20 || n == 0x85 || n == 0xA0 ||
  n == 0x1680 || (0x2000 ≤ n && n ≤ 0x200A) || n == 0x2028 || n == 0x2029 ||
  n == 0x202F || n == 0x205F || n == 0x3000

/-- `const GIT_TRIM: &[char] = &[' ','\r','\t','*']` (checks.rs line 26). -/
def GIT_TRIM : List Char := [' ', '\r', '\t', '*']

/-- Split a character list at every newline character; pieces do not contain
the separator.  Mirrors the splitting underlying Rust `str::lines`. -/
def splitNl : List Char → List (List Char)
  | [] => [[]]
  | c :: cs =>
    if c = '\n' then [] :: splitNl cs
    else
      match splitNl cs with
      | t :: ts => (c :: t) :: ts
      | [] => [[c]]

/-- Strip one trailing carriage return, as Rust `lines` does on every
newline-terminated piece. -/
def stripCR (l : List Char) : List Char :=
  if l.getLast? = some '\r' then l.dropLast else l

/-- Rust `str::lines` on a character list: split at `'\n'`, strip a trailing
`'\r'` from every piece that was newline-terminated, and omit the final piece
when it is empty (a trailing newline does not produce an empty last line). -/
def rustLinesChars (s : List Char) : List (List Char) :=
  let ps := splitNl s
  ps.dropLast.map stripCR ++ (if ps.getLastD [] = [] then [] else [ps.getLastD []])

/-- Rust `str::lines` on a `String`, yielding the lines as `String`s. -/
def rustLines (s : String) : List String :=
  (rustLinesChars s.data).map String.mk

/-- Rust `str::is_empty`: the string has no characters. -/
def strIsEmpty (s : String) : Bool :=
  s.data.isEmpty

/-- Rust `str::starts_with`: `pre` is a prefix of `s`. -/
def strStartsWith (s pre : String) : Bool :=
  pre.data.isPrefixOf s.data

/-- Drop, from the front of a character list, every character satisfying `p`
up to the first that does not. -/
def dropLead (p : Char → Bool) (l : List Char) : List Char :=
  l.dropWhile p

/-- Drop trailing characters satisfying `p`. -/
def dropTrail (p : Char → Bool) (l : List Char) : List Char :=
  (l.reverse.dropWhile p).reverse

/-- Rust `str::trim_matches` with a character-set pattern: strip characters of
the set from both ends. -/
def trimMatchesSet (set : List Char) (s : String) : String :=
  String.mk (dropTrail (fun c => set.contains c) (dropLead (fun c => set.contains c) s.data))

/-- Rust `str::trim`: strip Unicode whitespace from both ends. -/
def rustTrim (s : String) : String :=
  String.mk (dropTrail isRustWhitespace (dropLead isRustWhitespace s.data))

/-- Rust `line.split_whitespace().next()`: the first maximal run of
non-whitespace characters, if any. -/
def firstTok (l : List Char) : Option (List Char) :=
  match l.dropWhile isRustWhitespace with
  | [] => none
  | c :: cs => some ((c :: cs).takeWhile (fun d => !isRustWhitespace d))

/-- The pure part of `git_branch_list` (checks.rs lines 41-51): split the
command output into lines, trim each line with `GIT_TRIM`, keep lines that are
non-empty and do not start with `'('`, and collect the first
whitespace-delimited token of each kept line. -/
def parseBranches (out : String) : List String :=
  (((rustLines out).map (trimMatchesSet GIT_TRIM)).filter
      (fun l => !strIsEmpty l && !strStartsWith l "(")).filterMap
    (fun l => (firstTok l.data).map String.mk)

/-- CLI options decoded by docopt (checks.rs lines 15-24).  `arg_path`,
`flag_version` and `flag_verbose` only steer glue code but are kept for
fidelity. -/
structure Args where
  flag_version : Bool
  flag_all : Bool
  flag_no_untracked : Bool
  flag_no_modified : Bool
  flag_no_unpushed : Bool
  flag_verbose : Bool
  arg_path : String
deriving DecidableEq, Repr

/-- The subprocess boundary for one repository: the outcome of each read-only
`git` query the program can issue there.  `.error e` stands for a non-zero
exit with stderr `e`; `.ok out` for a zero exit with stdout `out`. -/
structure GitEnv where
  statusOut : Except String String
  localOut : Except String String
  remoteOut : Except String String
  mergedOut : String → Except String String

/-- `git_branch_list` (checks.rs lines 29-52) applied to a query result: a
non-zero exit propagates the stderr text as the error, success parses the
stdout into branch names. -/
def git_branch_list (r : Except String String) : Except String (List String) :=
  match r with
  | .error e => .error e
  | .ok out => .ok (parseBranches out)

/-- `if let Some(pos) = local_branches.iter().position(|e| e == &branch)
{ local_branches.remove(pos); }` (checks.rs lines 108-110): remove the first
occurrence of `b`, if any. -/
def removeBranch (l : List String) (b : String) : List String :=
  match l.findIdx? (fun e => e = b) with
  | some pos => l.eraseIdx pos
  | none => l

/-- The inner `for branch in merged` loop (checks.rs lines 107-111). -/
def removeAll (acc : List String) (merged : List String) : List String :=
  merged.foldl removeBranch acc

/-- The `for remote in remote_branches` loop (checks.rs lines 102-112):
stop (`break`) when no local branches remain, otherwise query the branches
merged into the remote and remove each of them from the accumulator; a failed
query aborts the whole resolver (`?`). -/
def remoteLoop (env : GitEnv) : List String → List String → Except String (List String)
  | acc, [] => .ok acc
  | acc, remote :: rest =>
    if acc.isEmpty then .ok acc
    else
      match git_branch_list (env.mergedOut remote) with
      | .error e => .error e
      | .ok merged => remoteLoop env (removeAll acc merged) rest

/-- The fold building the detail list (checks.rs lines 115-116):
`local_branches.iter().fold("", |a, b| if !a.is_empty() {a + ", "} else {a} + b)`. -/
def foldDesc (l : List String) : String :=
  l.foldl (fun a b => (if !strIsEmpty a then a ++ ", " else a) ++ b) ""

/-- `check_unpushed_branches` (checks.rs lines 92-122). -/
def check_unpushed_branches (env : GitEnv) (args : Args) :
    Except String (String × String) :=
  if args.flag_no_unpushed then .ok ("", "")
  else
    match git_branch_list env.localOut with
    | .error e => .error e
    | .ok local_branches =>
      match git_branch_list env.remoteOut with
      | .error e => .error e
      | .ok remote_branches =>
        match remoteLoop env local_branches remote_branches with
        | .error e => .error e
        | .ok remaining =>
          if !remaining.isEmpty then
            .ok ("P",
              "(P) The following branches were not pushed to any remote: " ++
                foldDesc remaining)
          else .ok ("", "")

/-- The trimmed status lines seen by the classification loop
(checks.rs line 72): `status.lines().map(|l| l.trim())`. -/
def trimmedLines (out : String) : List String :=
  (rustLines out).map rustTrim

/-- The classification loop of `check_untracked_modified`
(checks.rs lines 69-78): a line starting with `"??"` assigns
`untracked = !flag_no_untracked`, any other line assigns
`modified = !flag_no_modified`. -/
def statusFlags (noU noM : Bool) (lines : List String) : Bool × Bool :=
  lines.foldl
    (fun um line => if strStartsWith line "??" then (!noU, um.2) else (um.1, !noM))
    (false, false)

/-- `check_untracked_modified` (checks.rs lines 56-88). -/
def check_untracked_modified (env : GitEnv) (args : Args) :
    Except String (String × String) :=
  match env.statusOut with
  | .error e => .error e
  | .ok out =>
    let um := statusFlags args.flag_no_untracked args.flag_no_modified (trimmedLines out)
    .ok ((if um.1 then "U" else "") ++ (if um.2 then "M" else ""), "")

/-- `ALL_CHECKS` (checks.rs lines 124-127): unpushed-branch check first, then
the untracked/modified check. -/
def ALL_CHECKS : List (GitEnv → Args → Except String (String × String)) :=
  [check_unpushed_branches, check_untracked_modified]

/-- The check loop of `git_repo_ok` (main.rs lines 85-94): run the registered
checks in order, concatenating the summary codes of the successful ones and
collecting errors and verbose messages in order.  Result:
`(summary, errors, verbose)`. -/
def runChecks (env : GitEnv) (args : Args) : String × List String × List String :=
  ALL_CHECKS.foldl
    (fun acc check =>
      match check env args with
      | .error err => (acc.1, acc.2.1 ++ [err], acc.2.2)
      | .ok sm => (acc.1 ++ sm.1, acc.2.1, acc.2.2 ++ [sm.2]))
    ("", [], [])

/-- The summary after the error marker (main.rs lines 96-98): push `'E'` when
any check failed. -/
def summaryOf (env : GitEnv) (args : Args) : String :=
  (runChecks env args).1 ++ (if (runChecks env args).2.1.isEmpty then "" else "E")

/-- `format!("[Error{}]:{}", errn, err)` for each error, numbered from 0
(main.rs lines 109-112). -/
def errorLines (errors : List String) : List String :=
  errors.enum.map (fun ie => "[Error" ++ toString ie.1 ++ "]:" ++ ie.2)

/-- Rust `format!("{:<4} {}", summary, path)`: the summary left-aligned and
padded with spaces to at least four characters, then a space and the path. -/
def padTo4 (s : String) : String :=
  s ++ String.mk (List.replicate (4 - s.length) ' ')

/-- `git_repo_ok` (main.rs lines 79-117), returning the boolean result
together with the lines printed to stdout and to stderr. -/
def git_repo_ok (p : String) (env : GitEnv) (args : Args) :
    Bool × List String × List String :=
  let summary := summaryOf env args
  if !strIsEmpty summary || args.flag_all then
    (strIsEmpty summary,
     [padTo4 summary ++ " " ++ p] ++
       (if args.flag_verbose then
          (runChecks env args).2.2.filter (fun m => !strIsEmpty m)
        else []),
     errorLines (runChecks env args).2.1)
  else (strIsEmpty summary, [], [])

/-- A directory tree as seen by the walker: a directory with an ordered entry
list (the order `read_dir` yields them), or a non-directory entry. -/
inductive FsTree : Type where
  | file : FsTree
  | dir : List (String × FsTree) → FsTree

/-- `entry.file_type().is_dir()`. -/
def FsTree.isDir : FsTree → Bool
  | .dir _ => true
  | .file => false

mutual
/-- `for_all_git_repos` (main.rs lines 55-76) over the tree model: the count
of repositories under `t` for which the callback returned `false`.  Reading a
non-directory fails, giving 0 (`unwrap_or_return!(read_dir(p), 0)`). -/
def for_all_git_repos (cb : List String → Bool) (p : List String) : FsTree → Nat
  | .file => 0
  | .dir entries => walkEntries cb p entries

/-- The entry loop of `for_all_git_repos`: non-directories are skipped; a
directory named `".git"` invokes the callback on the current path and breaks;
any other directory is recursed into. -/
def walkEntries (cb : List String → Bool) (p : List String) :
    List (String × FsTree) → Nat
  | [] => 0
  | (name, t) :: rest =>
    if t.isDir then
      if name = ".git" then (if cb p then 0 else 1)
      else for_all_git_repos cb (p ++ [name]) t + walkEntries cb p rest
    else walkEntries cb p rest
end

/-! ## Helper lemmas -/

theorem removeBranch_sublist (l : List String) (b : String) :
    (removeBranch l b).Sublist l := by
  unfold removeBranch
  cases h : l.findIdx? (fun e => e = b) with
  | none => exact List.Sublist.refl l
  | some pos => exact List.eraseIdx_sublist l pos

theorem removeAll_sublist (merged : List String) :
    ∀ acc : List String, (removeAll acc merged).Sublist acc := by
  induction merged with
  | nil => intro acc; exact List.Sublist.refl acc
  | cons m ms ih =>
    intro acc
    have h1 : (removeAll (removeBranch acc m) ms).Sublist (removeBranch acc m) :=
      ih (removeBranch acc m)
    exact h1.trans (removeBranch_sublist acc m)

theorem remoteLoop_sublist (env : GitEnv) (remotes : List String) :
    ∀ acc res : List String,
      remoteLoop env acc remotes = .ok res → res.Sublist acc := by
  induction remotes with
  | nil =>
    intro acc res h
    simp only [remoteLoop] at h
    cases h
    exact List.Sublist.refl _
  | cons r rs ih =>
    intro acc res h
    simp only [remoteLoop] at h
    by_cases hacc : acc.isEmpty
    · rw [if_pos hacc] at h
      cases h
      exact List.Sublist.refl _
    · rw [if_neg hacc] at h
      cases hmerged : git_branch_list (env.mergedOut r) with
      | error e => rw [hmerged] at h; cases h
      | ok merged =>
        rw [hmerged] at h
        exact (ih (removeAll acc merged) res h).trans (removeAll_sublist merged acc)

/-! ## Concrete scenarios used by witnesses and counterexamples -/

/-- All flags off, empty path. -/
def argsDefault : Args :=
  ⟨false, false, false, false, false, false, ""⟩

/-- `--no-unpushed`. -/
def argsNoUnpushed : Args :=
  { argsDefault with flag_no_unpushed := true }

/-- A repository with one untracked file, no modifications, no remotes, and
two local branches `main` (checked out) and `feature`. -/
def envTwoLocal : GitEnv :=
  { statusOut := .ok "?? file.txt\n"
    localOut := .ok "* main\n  feature\n"
    remoteOut := .ok ""
    mergedOut := fun _ => .ok "" }

/-- A repository whose local branch list parses to `["x", "x"]` while remote
`origin` has exactly `x` merged into it. -/
def envDupLocal : GitEnv :=
  { statusOut := .ok ""
    localOut := .ok "x\nx\n"
    remoteOut := .ok "origin\n"
    mergedOut := fun r => if r = "origin" then .ok "x\n" else .ok "" }

/-- A repository where the status query fails with stderr `"boom"`. -/
def envStatusFails : GitEnv :=
  { statusOut := .error "boom"
    localOut := .ok ""
    remoteOut := .ok ""
    mergedOut := fun _ => .ok "" }

/-! ## C7 and C8 -/

/-- C7: within one invocation of the unpushed-branch resolver the branch set
only shrinks — each single removal, each per-remote removal pass, and the
whole remote loop produce a sublist of the set they started from, so a name
(occurrence) once removed is never re-added before the set is read at the
end. -/
theorem C7_branchset_monotonic_shrink :
    (∀ (acc : List String) (b : String), (removeBranch acc b).Sublist acc) ∧
    (∀ acc merged : List String, (removeAll acc merged).Sublist acc) ∧
    (∀ (env : GitEnv) (acc remotes res : List String),
      remoteLoop env acc remotes = .ok res → res.Sublist acc) := by
  refine ⟨removeBranch_sublist, fun acc merged => removeAll_sublist merged acc, ?_⟩
  intro env acc remotes res h
  exact remoteLoop_sublist env remotes acc res h

/-- Witness for C7 at a concrete run: the loop over remote `origin` shrinks
`["x", "x"]` to `["x"]`, a sublist of the start set. -/
theorem C7_branchset_monotonic_shrink_witness :
    List.Sublist ["x"] ["x", "x"] :=
  C7_branchset_monotonic_shrink.2.2 envDupLocal ["x", "x"] ["origin"] ["x"] rfl

/-- C8: when the unpushed check is suppressed the resolver returns the empty
outcome at once, and its result does not depend on the subprocess environment
at all (no adapter query is consulted). -/
theorem C8_unpushed_suppressed_no_queries (env env' : GitEnv) (args : Args)
    (h : args.flag_no_unpushed = true) :
    check_unpushed_branches env args = .ok ("", "") ∧
    check_unpushed_branches env args = check_unpushed_branches env' args := by
  unfold check_unpushed_branches
  rw [h]
  simp

/-- Witness for C8: with `--no-unpushed` the resolver gives the empty outcome
on a concrete repository and agrees with its run in a different environment. -/
theorem C8_unpushed_suppressed_no_queries_witness :
    check_unpushed_branches envTwoLocal argsNoUnpushed = .ok ("", "") ∧
    check_unpushed_branches envTwoLocal argsNoUnpushed =
      check_unpushed_branches envStatusFails argsNoUnpushed :=
  C8_unpushed_suppressed_no_queries envTwoLocal envStatusFails argsNoUnpushed rfl

theorem dropWhile_head_not {p : Char → Bool} {l : List Char} {c : Char}
    {cs : List Char} (h : l.dropWhile p = c :: cs) : p c = false := by
  have := List.head?_dropWhile_not p l
  rw [h] at this
  exact this

theorem firstTok_ne_nil {l t : List Char} (h : firstTok l = some t) : t ≠ [] := by
  unfold firstTok at h
  cases hd : l.dropWhile isRustWhitespace with
  | nil => rw [hd] at h; cases h
  | cons c cs =>
    rw [hd] at h
    have hc : isRustWhitespace c = false := dropWhile_head_not hd
    dsimp only at h
    cases h
    rw [List.takeWhile_cons_of_pos (by simp [hc])]
    simp

theorem parseBranches_ne_empty {out : String} {x : String}
    (hx : x ∈ parseBranches out) : x ≠ "" := by
  unfold parseBranches at hx
  rcases List.mem_filterMap.mp hx with ⟨l, _, hsome⟩
  cases htok : firstTok l.data with
  | none => rw [htok] at hsome; cases hsome
  | some t =>
    rw [htok] at hsome
    cases hsome
    have ht : t ≠ [] := firstTok_ne_nil htok
    intro hcontra
    exact ht (congrArg String.data hcontra)

/-- The detail text the claims describe: the branch names joined by the
separator. -/
def joinSep (sep : String) : List String → String
  | [] => ""
  | [x] => x
  | x :: y :: xs => x ++ sep ++ joinSep sep (y :: xs)

theorem foldDesc_go (xs : List String) :
    ∀ a : String, a ≠ "" →
      xs.foldl (fun a b => (if !strIsEmpty a then a ++ ", " else a) ++ b) a =
        joinSep ", " (a :: xs) := by
  induction xs with
  | nil => intro a _; rfl
  | cons x xs ih =>
    intro a ha
    have hne : strIsEmpty a = false := by
      cases a with
      | mk d =>
        cases d with
        | nil => exact absurd rfl ha
        | cons c cs => simp [strIsEmpty]
    have hstep : (if !strIsEmpty a then a ++ ", " else a) ++ x = a ++ ", " ++ x := by
      rw [hne]; simp
    have hane : a ++ ", " ++ x ≠ "" := by
      intro hcontra
      have := congrArg String.data hcontra
      simp at this
    rw [List.foldl_cons, hstep, ih (a ++ ", " ++ x) hane]
    cases xs with
    | nil => simp [joinSep]
    | cons y ys => simp [joinSep, String.append_assoc]

theorem foldDesc_eq_joinSep {l : List String} (h : ∀ x ∈ l, x ≠ "") :
    foldDesc l = joinSep ", " l := by
  cases l with
  | nil => rfl
  | cons x xs =>
    have hx : x ≠ "" := h x (by simp)
    have hstep : (if !strIsEmpty ("" : String) then ("" : String) ++ ", " else "") ++ x = x := by
      simp [strIsEmpty]
    unfold foldDesc
    rw [List.foldl_cons, hstep, foldDesc_go xs x hx]

/-! ## C4 -/

/-- C4: with the unpushed check enabled, an empty remote-branch list and a
local branch list `locals`, the resolver reports status code `"P"` with the
detail message naming all local branches joined by `", "` when `locals` is
non-empty, and the empty outcome when it is empty. -/
theorem C4_no_remotes_all_unpushed (env : GitEnv) (args : Args)
    (locals : List String)
    (hflag : args.flag_no_unpushed = false)
    (hremote : git_branch_list env.remoteOut = .ok [])
    (hlocal : git_branch_list env.localOut = .ok locals) :
    check_unpushed_branches env args =
      if locals.isEmpty then .ok ("", "")
      else .ok ("P",
        "(P) The following branches were not pushed to any remote: " ++
          joinSep ", " locals) := by
  have hne : ∀ x ∈ locals, x ≠ "" := by
    cases hout : env.localOut with
    | error e => rw [hout] at hlocal; cases hlocal
    | ok out =>
      rw [hout] at hlocal
      have hpb : parseBranches out = locals := by
        simpa [git_branch_list] using hlocal
      intro x hx
      exact parseBranches_ne_empty (hpb ▸ hx)
  unfold check_unpushed_branches
  rw [hflag, hlocal, hremote]
  simp only [remoteLoop]
  rw [foldDesc_eq_joinSep hne]
  by_cases h : locals.isEmpty <;> simp [h]

/-- Witness for C4: the two-local-branch repository with no remotes reports
both branches as unpushed. -/
theorem C4_no_remotes_all_unpushed_witness :
    check_unpushed_branches envTwoLocal argsDefault =
      .ok ("P",
        "(P) The following branches were not pushed to any remote: main, feature") := by
  have h := C4_no_remotes_all_unpushed envTwoLocal argsDefault
    ["main", "feature"] rfl rfl rfl
  simpa [joinSep] using h

/-! ## C3 -/

theorem statusFlags_go (noU noM : Bool) (lines : List String) :
    ∀ u0 m0 : Bool,
      lines.foldl
        (fun um line => if strStartsWith line "??" then (!noU, um.2) else (um.1, !noM))
        (u0, m0) =
      ((if lines.any (fun l => strStartsWith l "??") then !noU else u0),
       (if lines.any (fun l => !(strStartsWith l "??")) then !noM else m0)) := by
  induction lines with
  | nil => intro u0 m0; simp
  | cons l ls ih =>
    intro u0 m0
    rw [List.foldl_cons]
    by_cases h : strStartsWith l "??" = true
    · rw [if_pos h, ih]
      simp [h]
    · rw [if_neg h, ih]
      simp only [Bool.not_eq_true] at h
      simp [h]

theorem statusFlags_spec (noU noM : Bool) (lines : List String) :
    statusFlags noU noM lines =
      (lines.any (fun l => strStartsWith l "??") && !noU,
       lines.any (fun l => !(strStartsWith l "??")) && !noM) := by
  unfold statusFlags
  rw [statusFlags_go]
  cases h1 : lines.any (fun l => strStartsWith l "??") <;>
    cases h2 : lines.any (fun l => !(strStartsWith l "??")) <;> simp

/-- A status output whose second line is blank: one untracked line and one
empty line. -/
def envUntrackedBlank : GitEnv :=
  { statusOut := .ok "?? a\n\n"
    localOut := .ok ""
    remoteOut := .ok ""
    mergedOut := fun _ => .ok "" }

/-- Counterexample to C3: on status output `"?? a\n\n"` the resolver returns
code `"UM"`, yet the trimmed status lines are `["?? a", ""]` — there is no
non-empty line other than the `"??"` one, so the claimed iff fails (the blank
line alone set the modified flag). -/
theorem C3_counterexample :
    check_untracked_modified envUntrackedBlank argsDefault = .ok ("UM", "") ∧
    trimmedLines "?? a\n\n" = ["?? a", ""] :=
  ⟨rfl, rfl⟩

/-- C3 amended: with neither check suppressed, a trimmed line starting with
`"??"` sets only the untracked flag and every other line — including an empty
one — sets the modified flag; the code is `"U"` then `"M"` in that fixed
order, and it equals `"UM"` iff some trimmed line starts with `"??"` and some
trimmed line does not (that other line need not be non-empty). -/
theorem C3_status_um_characterization (env : GitEnv) (args : Args) (out : String)
    (hout : env.statusOut = .ok out)
    (hU : args.flag_no_untracked = false)
    (hM : args.flag_no_modified = false) :
    check_untracked_modified env args =
      .ok ((if (trimmedLines out).any (fun l => strStartsWith l "??") then "U" else "") ++
           (if (trimmedLines out).any (fun l => !(strStartsWith l "??")) then "M" else ""),
           "") ∧
    (check_untracked_modified env args = .ok ("UM", "") ↔
      ((trimmedLines out).any (fun l => strStartsWith l "??") = true ∧
       (trimmedLines out).any (fun l => !(strStartsWith l "??")) = true)) := by
  have heq : check_untracked_modified env args =
      .ok ((if (trimmedLines out).any (fun l => strStartsWith l "??") then "U" else "") ++
           (if (trimmedLines out).any (fun l => !(strStartsWith l "??")) then "M" else ""),
           "") := by
    unfold check_untracked_modified
    rw [hout]
    dsimp only
    rw [statusFlags_spec, hU, hM]
    simp
  refine ⟨heq, ?_⟩
  rw [heq]
  cases h1 : (trimmedLines out).any (fun l => strStartsWith l "??") <;>
    cases h2 : (trimmedLines out).any (fun l => !(strStartsWith l "??")) <;>
      simp

/-- Witness for the amended C3 at the blank-line repository. -/
theorem C3_status_um_characterization_witness :
    check_untracked_modified envUntrackedBlank argsDefault =
      .ok ((if (trimmedLines "?? a\n\n").any (fun l => strStartsWith l "??")
              then "U" else "") ++
           (if (trimmedLines "?? a\n\n").any (fun l => !(strStartsWith l "??"))
              then "M" else ""), "") :=
  (C3_status_um_characterization envUntrackedBlank argsDefault "?? a\n\n" rfl rfl rfl).1

/-! ## C9 -/

theorem removeBranch_eq_erase (b : String) :
    ∀ l : List String, removeBranch l b = l.erase b := by
  intro l
  induction l with
  | nil => rfl
  | cons x xs ih =>
    unfold removeBranch
    rw [List.findIdx?_cons]
    by_cases hx : x = b
    · subst hx
      simp
    · have hxb : ¬ (x == b) = true := by simp [hx]
      rw [if_neg (by simpa using hx), List.erase_cons_tail hxb]
      unfold removeBranch at ih
      rw [List.findIdx?_succ]
      cases hfind : xs.findIdx? (fun e => e = b) with
      | none =>
        rw [hfind] at ih
        dsimp only at ih
        dsimp only [Option.map]
        rw [← ih]
      | some i =>
        rw [hfind] at ih
        dsimp only at ih
        dsimp only [Option.map]
        rw [List.eraseIdx_cons_succ, ih]

theorem removeAll_eq_filter {acc : List String} (merged : List String)
    (hnd : acc.Nodup) :
    removeAll acc merged = acc.filter (fun a => decide (¬ a ∈ merged)) := by
  induction merged generalizing acc with
  | nil => simp [removeAll]
  | cons m ms ih =>
    have hstep : removeAll acc (m :: ms) = removeAll (removeBranch acc m) ms := rfl
    rw [hstep, removeBranch_eq_erase m acc, List.Nodup.erase_eq_filter hnd m,
      ih (hnd.filter _), List.filter_filter]
    apply List.filter_congr
    intro a _
    by_cases h1 : a = m <;> by_cases h2 : a ∈ ms <;> simp [h1, h2]

/-- Counterexample to C9: local branches parse to `["x", "x"]` and remote
`origin` reports `x` merged, yet only the first occurrence of `"x"` is
removed, so the resolver still reports `"x"` as unpushed instead of removing
every occurrence and returning the empty outcome. -/
theorem C9_counterexample :
    check_unpushed_branches envDupLocal argsDefault =
      .ok ("P", "(P) The following branches were not pushed to any remote: x") ∧
    removeAll ["x", "x"] ["x"] = ["x"] :=
  ⟨rfl, rfl⟩

/-- C9 amended: one step of the remote loop — when the branch set is already
empty the loop stops with the empty set, independently of the environment
(no merged-branch query is consulted); otherwise the merged list for the
remote is fetched and each of its entries removes the first matching
occurrence from the branch set (one removal per merged-list entry), which
removes every occurrence of every merged name only when the branch set has
no duplicates. -/
theorem C9_remote_loop_step (env env' : GitEnv) (acc : List String)
    (remote : String) (rest : List String) :
    (acc = [] →
      remoteLoop env acc (remote :: rest) = .ok [] ∧
      remoteLoop env acc (remote :: rest) = remoteLoop env' acc (remote :: rest)) ∧
    (acc ≠ [] →
      remoteLoop env acc (remote :: rest) =
        match git_branch_list (env.mergedOut remote) with
        | .error e => .error e
        | .ok merged => remoteLoop env (merged.foldl removeBranch acc) rest) ∧
    (acc.Nodup → ∀ merged : List String,
      removeAll acc merged = acc.filter (fun a => decide (¬ a ∈ merged))) := by
  refine ⟨?_, ?_, ?_⟩
  · intro h
    subst h
    simp [remoteLoop]
  · intro h
    have hne : acc.isEmpty = false := by
      cases acc with
      | nil => exact absurd rfl h
      | cons a as => rfl
    simp only [remoteLoop, hne]
    rfl
  · intro hnd merged
    exact removeAll_eq_filter merged hnd

/-- Witness for the amended C9: one loop step on the duplicate-branch
repository. -/
theorem C9_remote_loop_step_witness :
    remoteLoop envDupLocal ["x", "x"] ["origin"] =
      match git_branch_list (envDupLocal.mergedOut "origin") with
      | .error e => .error e
      | .ok merged => remoteLoop envDupLocal (merged.foldl removeBranch ["x", "x"]) [] :=
  (C9_remote_loop_step envDupLocal envDupLocal ["x", "x"] "origin" []).2.1 (by decide)

/-! ## Aggregator lemmas -/

theorem runChecks_eq (env : GitEnv) (args : Args) :
    runChecks env args =
      match check_unpushed_branches env args, check_untracked_modified env args with
      | .ok r1, .ok r2 => (r1.1 ++ r2.1, [], [r1.2, r2.2])
      | .ok r1, .error e2 => (r1.1, [e2], [r1.2])
      | .error e1, .ok r2 => (r2.1, [e1], [r2.2])
      | .error e1, .error e2 => ("", [e1, e2], []) := by
  unfold runChecks ALL_CHECKS
  rw [List.foldl_cons, List.foldl_cons, List.foldl_nil]
  cases h1 : check_unpushed_branches env args <;>
    cases h2 : check_untracked_modified env args <;> simp

theorem unpushed_code_shape (env : GitEnv) (args : Args) (r : String × String)
    (h : check_unpushed_branches env args = .ok r) : r.1 = "P" ∨ r.1 = "" := by
  unfold check_unpushed_branches at h
  split at h
  · cases h; exact .inr rfl
  · split at h
    · cases h
    · split at h
      · cases h
      · split at h
        · cases h
        · split at h
          · cases h; exact .inl rfl
          · cases h; exact .inr rfl

theorem untracked_code_shape (env : GitEnv) (args : Args) (r : String × String)
    (h : check_untracked_modified env args = .ok r) :
    r.1 = "" ∨ r.1 = "U" ∨ r.1 = "M" ∨ r.1 = "UM" := by
  unfold check_untracked_modified at h
  split at h
  · cases h
  · rename_i out heq
    rw [statusFlags_spec] at h
    cases h
    cases h1 : (trimmedLines out).any (fun l => strStartsWith l "??") <;>
      cases h2 : (trimmedLines out).any (fun l => !(strStartsWith l "??")) <;>
        cases hU : args.flag_no_untracked <;> cases hM : args.flag_no_modified <;>
          simp [h1, h2, hU, hM]

theorem runChecks_base_noE (env : GitEnv) (args : Args) :
    ¬ 'E' ∈ (runChecks env args).1.data := by
  rw [runChecks_eq]
  cases h1 : check_unpushed_branches env args with
  | error e1 =>
    cases h2 : check_untracked_modified env args with
    | error e2 => dsimp only; decide
    | ok r2 =>
      dsimp only
      rcases untracked_code_shape env args r2 h2 with h | h | h | h <;>
        rw [h] <;> decide
  | ok r1 =>
    cases h2 : check_untracked_modified env args with
    | error e2 =>
      dsimp only
      rcases unpushed_code_shape env args r1 h1 with h | h <;> rw [h] <;> decide
    | ok r2 =>
      dsimp only
      rcases unpushed_code_shape env args r1 h1 with h | h <;>
        rcases untracked_code_shape env args r2 h2 with h' | h' | h' | h' <;>
          rw [h, h'] <;> decide

theorem strIsEmpty_iff (s : String) : strIsEmpty s = true ↔ s = "" := by
  cases s with
  | mk d =>
    unfold strIsEmpty
    rw [List.isEmpty_iff]
    constructor
    · intro h
      exact String.ext h
    · intro h
      exact congrArg String.data h

theorem gitRepoOk_fst (p : String) (env : GitEnv) (args : Args) :
    (git_repo_ok p env args).1 = strIsEmpty (summaryOf env args) := by
  unfold git_repo_ok
  dsimp only
  split <;> rfl

theorem summary_no_errors (env : GitEnv) (args : Args)
    (h : (runChecks env args).2.1 = []) :
    summaryOf env args = (runChecks env args).1 := by
  unfold summaryOf
  rw [h]
  simp

theorem summary_with_errors (env : GitEnv) (args : Args)
    (h : (runChecks env args).2.1 ≠ []) :
    summaryOf env args = (runChecks env args).1 ++ "E" := by
  unfold summaryOf
  have hl : (runChecks env args).2.1.isEmpty = false := by
    cases hc : (runChecks env args).2.1 with
    | nil => exact absurd hc h
    | cons x xs => rfl
  rw [hl]
  simp

theorem strIsEmpty_append_E (s : String) : strIsEmpty (s ++ "E") = false := by
  unfold strIsEmpty
  rw [String.data_append]
  simp

theorem errors_not_clean (p : String) (env : GitEnv) (args : Args)
    (h : (runChecks env args).2.1 ≠ []) :
    (git_repo_ok p env args).1 = false := by
  rw [gitRepoOk_fst, summary_with_errors env args h, strIsEmpty_append_E]

theorem gitRepoOk_stderr (p : String) (env : GitEnv) (args : Args)
    (h : (runChecks env args).2.1 ≠ []) :
    (git_repo_ok p env args).2.2 = errorLines (runChecks env args).2.1 := by
  unfold git_repo_ok
  dsimp only
  have hsum : strIsEmpty (summaryOf env args) = false := by
    rw [summary_with_errors env args h]
    exact strIsEmpty_append_E _
  rw [hsum]
  simp

/-! ## C5 -/

/-- C5: the aggregator appends `'E'` to the summary iff some check failed
(the base summary built from successful checks never contains `'E'`), the
repository counts as clean iff the final summary is empty — so a repository
whose only findings are check failures is never clean — and the failures'
diagnostics go to the error channel as `"[Error<N>]:<text>"` numbered
sequentially from 0. -/
theorem C5_error_marker (p : String) (env : GitEnv) (args : Args) :
    ((runChecks env args).2.1 = [] → summaryOf env args = (runChecks env args).1) ∧
    ((runChecks env args).2.1 ≠ [] →
        summaryOf env args = (runChecks env args).1 ++ "E") ∧
    ¬ 'E' ∈ (runChecks env args).1.data ∧
    ((git_repo_ok p env args).1 = true ↔ summaryOf env args = "") ∧
    ((runChecks env args).2.1 ≠ [] → (git_repo_ok p env args).1 = false) ∧
    ((runChecks env args).2.1 ≠ [] →
        (git_repo_ok p env args).2.2 =
          (runChecks env args).2.1.enum.map
            (fun ie => "[Error" ++ toString ie.1 ++ "]:" ++ ie.2)) := by
  refine ⟨summary_no_errors env args, summary_with_errors env args,
    runChecks_base_noE env args, ?_, errors_not_clean p env args, ?_⟩
  · rw [gitRepoOk_fst]
    exact strIsEmpty_iff _
  · intro h
    rw [gitRepoOk_stderr p env args h]
    rfl

/-- Witness for C5 at a repository whose status query fails. -/
theorem C5_error_marker_witness :
    (git_repo_ok "repo" envStatusFails argsDefault).1 = false ∧
    (git_repo_ok "repo" envStatusFails argsDefault).2.2 =
      (runChecks envStatusFails argsDefault).2.1.enum.map
        (fun ie => "[Error" ++ toString ie.1 ++ "]:" ++ ie.2) :=
  ⟨(C5_error_marker "repo" envStatusFails argsDefault).2.2.2.2.1 (by decide),
   (C5_error_marker "repo" envStatusFails argsDefault).2.2.2.2.2 (by decide)⟩

/-! ## C10 -/

/-- `--no-untracked --no-modified`. -/
def argsNoUM : Args :=
  { argsDefault with flag_no_untracked := true, flag_no_modified := true }

/-- C10: with both the untracked and the modified check suppressed the status
query still runs — a failing query surfaces its stderr text as the check's
failure, forcing the `'E'` marker into the summary and a non-clean result —
while a successful query forces both flags false and gives the empty
outcome. -/
theorem C10_suppressed_status_still_runs (p : String) (env : GitEnv) (args : Args)
    (hU : args.flag_no_untracked = true) (hM : args.flag_no_modified = true) :
    (∀ e, env.statusOut = .error e →
      check_untracked_modified env args = .error e ∧
      summaryOf env args = (runChecks env args).1 ++ "E" ∧
      (git_repo_ok p env args).1 = false) ∧
    (∀ out, env.statusOut = .ok out →
      check_untracked_modified env args = .ok ("", "")) := by
  constructor
  · intro e he
    have hcheck : check_untracked_modified env args = .error e := by
      unfold check_untracked_modified
      rw [he]
    have herr : (runChecks env args).2.1 ≠ [] := by
      rw [runChecks_eq, hcheck]
      cases h1 : check_unpushed_branches env args <;> dsimp only <;> simp
    exact ⟨hcheck, summary_with_errors env args herr, errors_not_clean p env args herr⟩
  · intro out hout
    unfold check_untracked_modified
    rw [hout]
    dsimp only
    rw [statusFlags_spec, hU, hM]
    simp

/-- Witness for C10: the failing-status repository with both checks
suppressed is still non-clean, and a successful status query under the same
flags yields the empty outcome. -/
theorem C10_suppressed_status_still_runs_witness :
    check_untracked_modified envStatusFails argsNoUM = .error "boom" ∧
    (git_repo_ok "repo" envStatusFails argsNoUM).1 = false ∧
    check_untracked_modified envTwoLocal argsNoUM = .ok ("", "") :=
  ⟨((C10_suppressed_status_still_runs "repo" envStatusFails argsNoUM rfl rfl).1
      "boom" rfl).1,
   ((C10_suppressed_status_still_runs "repo" envStatusFails argsNoUM rfl rfl).1
      "boom" rfl).2.2,
   (C10_suppressed_status_still_runs "repo" envTwoLocal argsNoUM rfl rfl).2
      "?? file.txt\n" rfl⟩

/-! ## C1 -/

/-- Counterexample to C1: for the repository with one untracked file, no
modifications, no remotes and two local branches, the summary is `"PU"` —
the branch resolver runs before the status resolver — not the claimed
`"UP"`. -/
theorem C1_counterexample :
    summaryOf envTwoLocal argsDefault = "PU" ∧ "PU" ≠ "UP" :=
  ⟨rfl, by decide⟩

/-- C1 amended: the aggregator runs the registered checks in the fixed order
unpushed-branch resolver first, then working-tree status resolver, and the
summary concatenates their codes in that order; for the example repository
(one untracked file, no modifications, no remotes, two local branches) the
summary is `"PU"` (`"P"` before `"U"`). -/
theorem C1_summary_order (env : GitEnv) (args : Args) (r1 r2 : String × String)
    (h1 : check_unpushed_branches env args = .ok r1)
    (h2 : check_untracked_modified env args = .ok r2) :
    (runChecks env args).1 = r1.1 ++ r2.1 ∧
    summaryOf envTwoLocal argsDefault = "PU" := by
  constructor
  · rw [runChecks_eq, h1, h2]
  · rfl

/-- Witness for the amended C1 at the example repository. -/
theorem C1_summary_order_witness :
    (runChecks envTwoLocal argsDefault).1 =
      ("P", "(P) The following branches were not pushed to any remote: main, feature").1 ++
        ("U", "").1 ∧
    summaryOf envTwoLocal argsDefault = "PU" :=
  C1_summary_order envTwoLocal argsDefault
    ("P", "(P) The following branches were not pushed to any remote: main, feature")
    ("U", "") rfl rfl

/-! ## C2 -/

/-- A tree whose root directory lists a repository subdirectory `sub` before
its own `.git` entry. -/
def cexTree : FsTree :=
  .dir [("sub", .dir [(".git", .dir [])]), (".git", .dir [])]

/-- Counterexample to C2: the root of `cexTree` directly contains `.git`, and
the callback always returns `false`, so the claim predicts the walker returns
1; but because the subdirectory `sub` (itself a repository) is listed before
the `.git` entry, the walker recurses into it first and returns 2. -/
theorem C2_counterexample :
    for_all_git_repos (fun _ => false) [] cexTree = 2 ∧ (2 : Nat) ≠ 1 := by
  constructor
  · simp [cexTree, for_all_git_repos, walkEntries, FsTree.isDir]
  · decide

/-- C2 amended: when the walker's entry iteration reaches a directory entry
named `.git`, it invokes the callback exactly once on the current directory
and stops (entries after `.git`, repository or not, are never visited); but
subdirectories listed *before* the `.git` entry are still recursed into, so
the count returned for the directory is the callback's contribution (1 when
it returned false, 0 when true) plus the counts found under those
earlier-listed subdirectories; when `.git` is listed first the result is
exactly the callback's contribution. -/
theorem C2_walker_git_entry (cb : List String → Bool) (p : List String)
    (pre : List (String × FsTree)) (g post : List (String × FsTree))
    (hpre : ∀ e ∈ pre, ¬(e.1 = ".git" ∧ e.2.isDir = true)) :
    for_all_git_repos cb p (.dir (pre ++ (".git", .dir g) :: post)) =
      (pre.map (fun e => for_all_git_repos cb (p ++ [e.1]) e.2)).sum +
        (if cb p then 0 else 1) := by
  induction pre with
  | nil =>
    simp only [List.nil_append, List.map_nil, List.sum_nil, Nat.zero_add]
    simp [for_all_git_repos, walkEntries, FsTree.isDir]
  | cons e pre ih =>
    obtain ⟨n, t⟩ := e
    have hn := hpre (n, t) (by simp)
    have hrest : ∀ e ∈ pre, ¬(e.1 = ".git" ∧ e.2.isDir = true) := by
      intro e he
      exact hpre e (by simp [he])
    cases t with
    | file =>
      simp only [List.cons_append]
      simp only [for_all_git_repos, walkEntries, FsTree.isDir,
        Bool.false_eq_true, if_false]
      simp only [for_all_git_repos] at ih
      rw [ih hrest]
      simp [for_all_git_repos]
    | dir es =>
      have hne : n ≠ ".git" := by
        intro hcontra
        exact hn ⟨hcontra, rfl⟩
      simp only [List.cons_append]
      simp only [for_all_git_repos, walkEntries, FsTree.isDir, if_true]
      rw [if_neg hne]
      simp only [for_all_git_repos] at ih
      rw [ih hrest]
      simp [for_all_git_repos, Nat.add_assoc]

/-- Witness for the amended C2 on the counterexample tree: the count is the
recursion into `sub` plus the root's own callback contribution. -/
theorem C2_walker_git_entry_witness :
    for_all_git_repos (fun _ => false) []
        (.dir ([("sub", FsTree.dir [(".git", FsTree.dir [])])] ++
          (".git", FsTree.dir []) :: [])) =
      ([("sub", FsTree.dir [(".git", FsTree.dir [])])].map
        (fun e => for_all_git_repos (fun _ => false) ([] ++ [e.1]) e.2)).sum +
        (if (fun _ => false) ([] : List String) then 0 else 1) :=
  C2_walker_git_entry (fun _ => false) []
    [("sub", FsTree.dir [(".git", FsTree.dir [])])] [] []
    (by
      intro e he
      simp only [List.mem_singleton] at he
      subst he
      decide)

/-! ## C6 -/

theorem splitNl_no_newline {l : List Char} (h : ∀ c ∈ l, c ≠ '\n') :
    splitNl l = [l] := by
  induction l with
  | nil => rfl
  | cons c cs ih =>
    unfold splitNl
    rw [if_neg (h c (by simp))]
    rw [ih (fun d hd => h d (by simp [hd]))]

theorem rustLinesChars_single {l : List Char} (h : ∀ c ∈ l, c ≠ '\n')
    (hne : l ≠ []) : rustLinesChars l = [l] := by
  unfold rustLinesChars
  rw [splitNl_no_newline h]
  simp [hne]

theorem takeWhile_all {p : Char → Bool} {l : List Char}
    (h : ∀ c ∈ l, p c = true) : l.takeWhile p = l := by
  induction l with
  | nil => rfl
  | cons c cs ih =>
    rw [List.takeWhile_cons_of_pos (h c (by simp))]
    rw [ih (fun d hd => h d (by simp [hd]))]

/-- C6: for any branch name wrapped only in a single leading asterisk and
surrounding spaces/tabs, the adapter's parser — split into lines, trim the
`GIT_TRIM` characters from both ends, keep non-empty lines not starting with
`'('`, take the first whitespace-delimited token — returns exactly the bare
name.  The name is a non-empty character run with no whitespace, whose first
character is not a trim character and not `'('` and whose last character is
not a trim character. -/
theorem C6_adapter_strips_star (w1 w2 w3 : List Char) (c0 : Char) (cs : List Char)
    (hw1 : ∀ c ∈ w1, c = ' ' ∨ c = '\t')
    (hw2 : ∀ c ∈ w2, c = ' ' ∨ c = '\t')
    (hw3 : ∀ c ∈ w3, c = ' ' ∨ c = '\t')
    (hws : ∀ c ∈ c0 :: cs, isRustWhitespace c = false)
    (hc0 : GIT_TRIM.contains c0 = false)
    (hc0p : c0 ≠ '(')
    (hlast : GIT_TRIM.contains ((c0 :: cs).getLastD ' ') = false) :
    parseBranches (String.mk (w1 ++ '*' :: (w2 ++ (c0 :: cs) ++ w3))) =
      [String.mk (c0 :: cs)] := by
  have hL_noNl : ∀ c ∈ w1 ++ '*' :: (w2 ++ (c0 :: cs) ++ w3), c ≠ '\n' := by
    intro c hc
    simp only [List.mem_append, List.mem_cons] at hc
    rcases hc with h | h | h
    · rcases hw1 c h with rfl | rfl <;> decide
    · subst h; decide
    · rcases h with h | h
      · rcases h with h | h
        · rcases hw2 c h with rfl | rfl <;> decide
        · rcases h with rfl | h
          · intro hcontra
            have := hws c (by simp)
            rw [hcontra] at this
            exact absurd this (by decide)
          · intro hcontra
            have := hws c (by simp [h])
            rw [hcontra] at this
            exact absurd this (by decide)
      · rcases hw3 c h with rfl | rfl <;> decide
  have hL_ne : w1 ++ '*' :: (w2 ++ (c0 :: cs) ++ w3) ≠ [] := by simp
  have hlines : rustLines (String.mk (w1 ++ '*' :: (w2 ++ (c0 :: cs) ++ w3))) =
      [String.mk (w1 ++ '*' :: (w2 ++ (c0 :: cs) ++ w3))] := by
    unfold rustLines
    show (rustLinesChars (w1 ++ '*' :: (w2 ++ (c0 :: cs) ++ w3))).map String.mk = _
    rw [rustLinesChars_single hL_noNl hL_ne]
    rfl
  have h1 : (w1 ++ '*' :: (w2 ++ (c0 :: cs) ++ w3)).dropWhile
      (fun c => GIT_TRIM.contains c) = (c0 :: cs) ++ w3 := by
    rw [List.dropWhile_append_of_pos
      (by intro a ha; rcases hw1 a ha with rfl | rfl <;> decide)]
    rw [List.dropWhile_cons_of_pos (by decide)]
    rw [List.append_assoc]
    rw [List.dropWhile_append_of_pos
      (by intro a ha; rcases hw2 a ha with rfl | rfl <;> decide)]
    rw [List.cons_append]
    rw [List.dropWhile_cons_of_neg (by simp only [hc0]; decide)]
  have htrim : trimMatchesSet GIT_TRIM
      (String.mk (w1 ++ '*' :: (w2 ++ (c0 :: cs) ++ w3))) = String.mk (c0 :: cs) := by
    unfold trimMatchesSet dropLead dropTrail
    congr 1
    show ((((w1 ++ '*' :: (w2 ++ (c0 :: cs) ++ w3)).dropWhile
        (fun c => GIT_TRIM.contains c)).reverse.dropWhile
        (fun c => GIT_TRIM.contains c)).reverse) = c0 :: cs
    rw [h1, List.reverse_append]
    rw [List.dropWhile_append_of_pos
      (by intro a ha; rw [List.mem_reverse] at ha;
          rcases hw3 a ha with rfl | rfl <;> decide)]
    cases hrev : (c0 :: cs).reverse with
    | nil =>
      exact absurd hrev (by simp)
    | cons d ds =>
      have hgl : (c0 :: cs).getLast? = some d := by
        rw [List.getLast?_eq_head?_reverse, hrev]
        rfl
      have hd : (c0 :: cs).getLastD ' ' = d := by
        rw [List.getLastD_eq_getLast?, hgl]
        rfl
      rw [hd] at hlast
      rw [List.dropWhile_cons_of_neg (by simp only [hlast]; decide)]
      rw [← hrev, List.reverse_reverse]
  have hbeq : ('(' == c0) = false := by
    cases hb : ('(' == c0) with
    | false => rfl
    | true => exact absurd (eq_of_beq hb).symm hc0p
  have hfilter : (!strIsEmpty (String.mk (c0 :: cs)) &&
      !strStartsWith (String.mk (c0 :: cs)) "(") = true := by
    unfold strIsEmpty strStartsWith
    show (!(c0 :: cs).isEmpty && !(['('].isPrefixOf (c0 :: cs))) = true
    simp [List.isPrefixOf, hbeq]
  have htok : firstTok (c0 :: cs) = some (c0 :: cs) := by
    unfold firstTok
    rw [List.dropWhile_cons_of_neg (by simp [hws c0 (by simp)])]
    dsimp only
    rw [takeWhile_all (by intro c hc; simp [hws c hc])]
  unfold parseBranches
  rw [hlines, List.map_cons, List.map_nil, htrim]
  have hfl : List.filter (fun l => !strIsEmpty l && !strStartsWith l "(")
      [String.mk (c0 :: cs)] = [String.mk (c0 :: cs)] := by
    simp only [List.filter_cons, List.filter_nil]
    rw [hfilter]
    simp
  rw [hfl, List.filterMap_cons, List.filterMap_nil]
  dsimp only
  rw [htok]
  rfl

/-- Witness for C6: `"  *\tmain "` parses to the bare branch name `"main"`. -/
theorem C6_adapter_strips_star_witness :
    parseBranches (String.mk ([' ', ' '] ++ '*' :: (['\t'] ++
      (['m', 'a', 'i', 'n'] : List Char) ++ [' ']))) =
      [String.mk ['m', 'a', 'i', 'n']] :=
  C6_adapter_strips_star [' ', ' '] ['\t'] [' '] 'm' ['a', 'i', 'n']
    (by decide) (by decide) (by decide) (by decide) (by decide) (by decide) (by decide)

/-- Counterexample to C6: `"(x)"` is a legal branch name (parentheses are
allowed in git reference names), yet the branch-list line `"* (x)"` — that
name wrapped in a single leading asterisk and surrounding whitespace — trims
to `"(x)"`, which the parser then discards as a detached-HEAD placeholder
line: the result is `[]`, not the bare name. -/
theorem C6_counterexample :
    parseBranches "* (x)" = [] ∧ ([] : List String) ≠ ["(x)"] :=
  ⟨rfl, by decide⟩
